import Mathlib

/-!
Verification of the plover_controller gesture-recognition core.

The Python sources `util.py`, `machine.py` and `config.py` are embedded as
Lean definitions below: pure helpers become Lean functions, the mutable
`ControllerMachine` state becomes an explicit `MachineState` record, Python
dicts become association lists, Python sets become `Finset String`, and the
floating-point geometry of the stick quantizer is modelled over `ℝ`
(`math.atan2` as `Complex.arg`, `math.hypot` and `math.sqrt` as `Real.sqrt`,
`math.tau` as `2 * π`).  Axis values stored by the machine are modelled as
`ℚ` (the source computes them as `int / 32768`); they are cast to `ℝ` where
the source applies transcendental functions.
-/

namespace PloverController

open Real

/-- `math.tau` from the Python standard library. -/
noncomputable def tau : ℝ := 2 * Real.pi

/-- `math.hypot(x, y)` from the Python standard library. -/
noncomputable def hypot (x y : ℝ) : ℝ := Real.sqrt (x ^ 2 + y ^ 2)

/-- `math.atan2(y, x)` from the Python standard library: the argument of the
complex number `x + y*i`, in `(-π, π]`, with `atan2(0, 0) = 0`. -/
noncomputable def atan2 (y x : ℝ) : ℝ := Complex.arg ⟨x, y⟩

/-- The loop `while angle < 0: angle += tau` from `util.py` (`stick_segment`)
and `machine.py` (`check_stick`). -/
noncomputable def whileNeg (angle : ℝ) : ℝ :=
  if h : angle < 0 then whileNeg (angle + tau) else angle
termination_by (⌈-angle / tau⌉).toNat
decreasing_by
  have htau : (0 : ℝ) < tau := by
    have hpi := Real.pi_pos
    unfold tau
    linarith
  have hpos : (0 : ℝ) < -angle := by linarith
  have hceil : 0 < ⌈-angle / tau⌉ := by
    rw [Int.ceil_pos]
    exact div_pos hpos htau
  have hneg : -(angle + tau) = -angle - tau := by ring
  have hstep : -(angle + tau) / tau = -angle / tau - 1 := by
    rw [hneg, sub_div, div_self (ne_of_gt htau)]
  have : ⌈-(angle + tau) / tau⌉ = ⌈-angle / tau⌉ - 1 := by
    rw [hstep, Int.ceil_sub_one]
  omega

/-- The loop `while angle > tau: angle -= tau` from `util.py` (`stick_segment`)
and `machine.py` (`check_stick`). -/
noncomputable def whileGt (angle : ℝ) : ℝ :=
  if h : angle > tau then whileGt (angle - tau) else angle
termination_by (⌈(angle - tau) / tau⌉).toNat
decreasing_by
  have htau : (0 : ℝ) < tau := by
    have hpi := Real.pi_pos
    unfold tau
    linarith
  have hpos : (0 : ℝ) < angle - tau := by linarith
  have hceil : 0 < ⌈(angle - tau) / tau⌉ := by
    rw [Int.ceil_pos]
    exact div_pos hpos htau
  have hstep : (angle - tau - tau) / tau = (angle - tau) / tau - 1 := by
    rw [sub_div, div_self (ne_of_gt htau)]
  have : ⌈(angle - tau - tau) / tau⌉ = ⌈(angle - tau) / tau⌉ - 1 := by
    rw [hstep, Int.ceil_sub_one]
  omega

/-- `stick_segment` from `util.py`, translated line by line: the dead-zone
test, the offset subtraction, the two normalization loops, the floor and the
final Python `%` (which, like `Int.emod`, is nonnegative for a positive
modulus). -/
noncomputable def stick_segment (stick_dead_zone offset : ℝ) (segment_count : ℕ)
    (lr ud : ℝ) : Option ℤ :=
  if hypot lr ud < stick_dead_zone * Real.sqrt 2 then none
  else
    let offsetR := offset / 360 * tau
    let angle := whileGt (whileNeg (atan2 ud lr - offsetR))
    let segment := ⌊angle / tau * segment_count⌋
    some (segment % segment_count)

/-- The spec's description of the segment index of a raw (unnormalized) angle:
normalize the angle into `[0, 2π)` (i.e. take `tau * Int.fract (θ / tau)`),
then `floor(angle / (2π) * segment_count) mod segment_count`. -/
noncomputable def segOfAngle (segment_count : ℕ) (θ : ℝ) : ℤ :=
  ⌊Int.fract (θ / tau) * segment_count⌋ % segment_count

/-- The set literal `set("!@#$%^&*")` from `get_keys_for_stroke` in
`util.py`: the characters that are appended without a hyphen mark. -/
def no_hyphen_keys : List Char := [ '!', '@', '#', '$', '%', '^', '&', '*' ]

/-- The loop body of `get_keys_for_stroke` from `util.py`, with the
`passed_hyphen` flag threaded explicitly. -/
def strokeKeysGo : List Char → Bool → List String
  | [], _ => []
  | key :: rest, passed_hyphen =>
    if key = '-' then strokeKeysGo rest true
    else if key ∈ no_hyphen_keys then String.mk [ key ] :: strokeKeysGo rest passed_hyphen
    else if passed_hyphen then String.mk [ '-', key ] :: strokeKeysGo rest passed_hyphen
    else String.mk [ key, '-' ] :: strokeKeysGo rest passed_hyphen

/-- `get_keys_for_stroke` from `util.py`. -/
def get_keys_for_stroke (stroke_str : String) : List String :=
  strokeKeysGo stroke_str.toList false

/-- Modelled from the spec: the conversion of one left-bank character as the
spec words it — reserved boundary-independent symbols stay bare, other left
keys get a trailing hyphen. -/
def specLeftKey (c : Char) : String :=
  if c ∈ no_hyphen_keys then String.mk [ c ] else String.mk [ c, '-' ]

/-- Modelled from the spec: the conversion of one right-bank character as the
spec words it — reserved boundary-independent symbols stay bare, other right
keys get a leading hyphen. -/
def specRightKey (c : Char) : String :=
  if c ∈ no_hyphen_keys then String.mk [ c ] else String.mk [ '-', c ]

/-- The `for key in chord: in_keys.remove(key)` loop from `buttons_to_keys`. -/
def removeAll (s : Finset String) (chord : List String) : Finset String :=
  chord.foldl Finset.erase s

/-- The rule loop of `buttons_to_keys` from `util.py` / `machine.py`:
`in_keys` is the (consumed) available-symbol set, `keys` the accumulated
output set. -/
def buttonsToKeysGo : List (List String × List String) → Finset String → Finset String → Finset String
  | [], _, keys => keys
  | (chord, result) :: rest, in_keys, keys =>
    if ∀ x ∈ chord, x ∈ in_keys then
      buttonsToKeysGo rest (removeAll in_keys chord) (keys ∪ result.toFinset)
    else
      buttonsToKeysGo rest in_keys keys

/-- `buttons_to_keys` from `util.py` (identical code appears in
`machine.py`): resolve the unordered mappings against a set of available
symbols, greedily and consumingly, in declaration order. -/
def buttons_to_keys (in_keys : Finset String)
    (unordered_mappings : List (List String × List String)) : Finset String :=
  buttonsToKeysGo unordered_mappings in_keys ∅

/-- Python-dict lookup (`d.get(key)`), over an association list. -/
def dictGet {α β : Type} [DecidableEq α] : List (α × β) → α → Option β
  | [], _ => none
  | (k, v) :: rest, key => if key = k then some v else dictGet rest key

/-- Python-dict lookup with a default (`d.get(key, dflt)`). -/
def dictGetD {α β : Type} [DecidableEq α] (d : List (α × β)) (key : α) (dflt : β) : β :=
  (dictGet d key).getD dflt

/-- Python-dict assignment (`d[key] = v`): replace the binding if present,
append it otherwise. -/
def dictSet {α β : Type} [DecidableEq α] : List (α × β) → α → β → List (α × β)
  | [], key, v => [(key, v)]
  | (k, w) :: rest, key, v =>
    if key = k then (k, v) :: rest else (k, w) :: dictSet rest key v

/-- The configuration of a `ControllerMachine` (`machine.py`): the numeric
parameters from `get_option_info` together with the five collections produced
by `parse_mappings`.  Python dicts are association lists. -/
structure Params where
  stroke_end_threshold : ℚ
  stick_dead_zone : ℚ
  stick_segment_counts : List (String × ℕ)
  stick_offsets : List (String × ℚ)
  stick_directions : List (String × List String)
  unordered_mappings : List (List String × List String)
  ordered_mappings : List (List String × List String)
deriving DecidableEq

/-- The mutable state of a `ControllerMachine` (`machine.py`).  Axis values
are the rationals `event.value / 32768`; `output` records the key set passed
to each `_notify` call (the plover keymap, an external collaborator, is
modelled as the identity on key sets). -/
structure MachineState where
  stick_states : List (String × ℚ)
  trigger_states : List (String × ℚ)
  pressed_buttons : Finset String
  unsequenced_buttons : Finset String
  pending_keys : Finset String
  pending_stick_movements : List (String × List String)
  output : List (Finset String)
deriving DecidableEq

/-- The empty initial state (`machine.py` class attribute initializers). -/
def initialState : MachineState :=
  { stick_states := []
    trigger_states := []
    pressed_buttons := ∅
    unsequenced_buttons := ∅
    pending_keys := ∅
    pending_stick_movements := []
    output := [] }

/-- The final four lines of `check_stick` from `machine.py`: append
`segment_name` to the stick's in-order list unless it equals the current
last element. -/
def appendSegment (inorder_list : List String) (segment_name : String) : List String :=
  if inorder_list.length = 0 ∨ inorder_list.getLast? ≠ some segment_name then
    inorder_list ++ [ segment_name ]
  else
    inorder_list

/-- `ControllerMachine.maybe_complete_stroke` from `machine.py`.  The source
computes `actions = self.keymap.keys_to_actions(list(keys))` through the
external plover keymap; it is modelled as the identity, so the `if not
actions` guard becomes `if keys = ∅`. -/
def maybe_complete_stroke (p : Params) (st : MachineState) : MachineState :=
  if st.unsequenced_buttons = ∅ ∧ st.pending_keys = ∅ then st
  else if st.stick_states.any fun kv => decide (|kv.2| > p.stroke_end_threshold) then st
  else if st.trigger_states.any fun kv => decide (kv.2 > 0) then st
  else if st.pressed_buttons ≠ ∅ then st
  else
    let keys := buttons_to_keys st.unsequenced_buttons p.unordered_mappings ∪ st.pending_keys
    let st' := { st with unsequenced_buttons := ∅
                         pending_stick_movements := []
                         pending_keys := ∅ }
    if keys = ∅ then st' else { st' with output := st'.output ++ [ keys ] }

/-- `ControllerMachine.handle_button` from `machine.py` (after the
controller-instance-id check, which the embedding elides): a press records the
button as pressed and unsequenced; a release discards it and tries to
complete the stroke. -/
def handle_button (p : Params) (st : MachineState) (button : String) (pressed : Bool) :
    MachineState :=
  if pressed then
    { st with pressed_buttons := insert button st.pressed_buttons
              unsequenced_buttons := insert button st.unsequenced_buttons }
  else
    maybe_complete_stroke p { st with pressed_buttons := st.pressed_buttons.erase button }

/-- One iteration of the `for stick in ["left", "right"]` loop of
`ControllerMachine.maybe_complete_ordered_chord` from `machine.py`. -/
def resolveStick (p : Params) (st : MachineState) (stick : String) : MachineState :=
  if st.stick_states.any fun kv =>
      kv.1.startsWith stick && decide (|kv.2| > p.stroke_end_threshold) then st
  else
    let pending_stick_movements := dictGetD st.pending_stick_movements stick []
    match dictGet p.ordered_mappings pending_stick_movements with
    | some result =>
      { st with pending_stick_movements := dictSet st.pending_stick_movements stick []
                pending_keys := st.pending_keys ∪ result.toFinset }
    | none =>
      { st with unsequenced_buttons := st.unsequenced_buttons ∪ pending_stick_movements.toFinset
                pending_stick_movements := dictSet st.pending_stick_movements stick [] }

/-- `ControllerMachine.maybe_complete_ordered_chord` from `machine.py`. -/
def maybe_complete_ordered_chord (p : Params) (st : MachineState) : MachineState :=
  [ r"left", r"right" ].foldl (resolveStick p) st

/-- `ControllerMachine.check_stick` from `machine.py`.  The geometry is the
same inline code as `stick_segment` in `util.py`, so the embedding reuses
`hypot`, `atan2`, `whileNeg` and `whileGt`.  The source indexes
`self._stick_segment_counts[stick]` etc. and raises `KeyError` when the stick
was never declared; the embedding returns the state unchanged in that case
(no claim concerns undeclared sticks).  Likewise the list index into the
direction names is modelled with a default. -/
noncomputable def check_stick (p : Params) (st : MachineState) (stick : String)
    (lr ud : ℚ) : MachineState :=
  if hypot lr ud < (p.stick_dead_zone : ℝ) * Real.sqrt 2 then st
  else
    match dictGet p.stick_segment_counts stick, dictGet p.stick_offsets stick,
        dictGet p.stick_directions stick with
    | some segment_count, some offset0, some directions =>
      let offset : ℝ := (offset0 : ℝ) / 360 * tau
      let angle := whileGt (whileNeg (atan2 ud lr - offset))
      let segment := ⌊angle / tau * segment_count⌋
      let direction := directions.getD (segment % segment_count).toNat (String.mk [])
      let segment_name := stick ++ direction
      let inorder_list := dictGetD st.pending_stick_movements stick []
      { st with pending_stick_movements :=
          dictSet st.pending_stick_movements stick (appendSegment inorder_list segment_name) }
    | _, _, _ => st

/-- The pending ordered path of one stick. -/
def pathOf (st : MachineState) (stick : String) : List String :=
  dictGetD st.pending_stick_movements stick []

/-- A small configuration with one ordered mapping,
`left(d,dl) -> TW-` (as produced by `parse_mappings`). -/
def exampleParamsOrdered : Params :=
  { stroke_end_threshold := 2/5
    stick_dead_zone := 3/5
    stick_segment_counts := []
    stick_offsets := []
    stick_directions := []
    unordered_mappings := []
    ordered_mappings := [([ r"leftd", r"leftdl" ], [ r"T-", r"W-" ])] }

/-- A configuration with no mappings at all. -/
def exampleParamsEmpty : Params :=
  { stroke_end_threshold := 2/5
    stick_dead_zone := 3/5
    stick_segment_counts := []
    stick_offsets := []
    stick_directions := []
    unordered_mappings := []
    ordered_mappings := [] }

/-- A configuration with the single unordered rule `a -> -Z`. -/
def exampleParamsButtonA : Params :=
  { stroke_end_threshold := 2/5
    stick_dead_zone := 3/5
    stick_segment_counts := []
    stick_offsets := []
    stick_directions := []
    unordered_mappings := [([ r"a" ], [ r"-Z" ])]
    ordered_mappings := [] }

/-- A state in which the left stick has traced the pending path `d, dl` and
everything else is quiescent. -/
def exampleChordState : MachineState :=
  { initialState with pending_stick_movements := [( r"left", [ r"leftd", r"leftdl" ] )] }

/-- The `\\w` character class of Python's `re` (restricted to ASCII, which is
all the grammar uses). -/
def isWordChar (c : Char) : Bool := c.isAlphanum || c = '_'

/-- The `[a-z,]` character class. -/
def isLowerComma (c : Char) : Bool := c.isLower || c = ','

/-- The `[a-z0-9,]` character class. -/
def isLowerDigitComma (c : Char) : Bool := c.isLower || c.isDigit || c = ','

/-- The `[a-z0-9]` character class. -/
def isLowerDigit (c : Char) : Bool := c.isLower || c.isDigit

/-- The `[0-9-.]` character class (digits, hyphen, dot). -/
def isFloatChar (c : Char) : Bool := c.isDigit || c = '-' || c = '.'

/-- The `[A-Z-*#]` character class (uppercase letters, hyphen, star, hash). -/
def isStrokeChar (c : Char) : Bool := c.isUpper || c = '-' || c = '*' || c = '#'

/-- Greedy run of a character class: the longest prefix satisfying `p`, and
the remainder.  In each grammar regex every `X+` group is followed by a
literal whose first character is outside the class, so greedy matching
without backtracking is exact. -/
def takeClass (p : Char → Bool) : List Char → List Char × List Char
  | [] => ([], [])
  | c :: rest =>
    if p c then
      let (tk, rm) := takeClass p rest
      (c :: tk, rm)
    else ([], c :: rest)

/-- A `X+` regex group: at least one class character, greedily. -/
def matchClass1 (p : Char → Bool) (cs : List Char) : Option (List Char × List Char) :=
  match takeClass p cs with
  | ([], _) => none
  | (tk, rm) => some (tk, rm)

/-- A literal regex fragment: consume it or fail. -/
def matchLit : List Char → List Char → Option (List Char)
  | [], cs => some cs
  | _ :: _, [] => none
  | l :: ls, c :: cs => if c = l then matchLit ls cs else none

/-- `str.split(sep)` / `str.splitlines` modelled at character level (the
grammar text is newline-separated; blank pieces are skipped by the line
handler exactly as the source skips falsy lines). -/
def splitOnChar (sep : Char) : List Char → List (List Char)
  | [] => [[]]
  | c :: rest =>
    if c = sep then [] :: splitOnChar sep rest
    else
      match splitOnChar sep rest with
      | [] => [[ c ]]
      | p :: ps => (c :: p) :: ps

def commentChars : List Char := ( r"//" ).toList

def litStickSegments : List Char := ( r" stick has segments (" ).toList

def litOnAxes : List Char := ( r") on axes " ).toList

def litAnd : List Char := ( r" and " ).toList

def litOffsetBy : List Char := ( r" offset by " ).toList

def litDegrees : List Char := ( r" degrees" ).toList

def litArrow : List Char := ( r" -> " ).toList

def litLParen : List Char := ( r"(" ).toList

def litRParenArrow : List Char := ( r") -> " ).toList

def litButton : List Char := ( r"button " ).toList

def litIs : List Char := ( r" is " ).toList

def litHat : List Char := ( r"hat " ).toList

def litTriggerOnAxis : List Char := ( r"trigger on axis " ).toList

/-- The stick-declaration regex of `config.py`:
`(\\w+) stick has segments \\(([a-z,]+)\\) on axes (\\d+) and (\\d+) offset by
([0-9-.]+) degrees` (anchored at the start only, as `re.match` is). -/
def matchStickLine (cs : List Char) :
    Option (List Char × List Char × List Char × List Char × List Char) := do
  let (g1, r1) ← matchClass1 isWordChar cs
  let r2 ← matchLit litStickSegments r1
  let (g2, r3) ← matchClass1 isLowerComma r2
  let r4 ← matchLit litOnAxes r3
  let (g3, r5) ← matchClass1 Char.isDigit r4
  let r6 ← matchLit litAnd r5
  let (g4, r7) ← matchClass1 Char.isDigit r6
  let r8 ← matchLit litOffsetBy r7
  let (g5, r9) ← matchClass1 isFloatChar r8
  let _ ← matchLit litDegrees r9
  pure (g1, g2, g3, g4, g5)

/-- The unordered-rule regex of `config.py`: `([a-z0-9,]+) -> ([A-Z-*#]+)`. -/
def matchUnorderedLine (cs : List Char) : Option (List Char × List Char) := do
  let (g1, r1) ← matchClass1 isLowerDigitComma cs
  let r2 ← matchLit litArrow r1
  let (g2, _) ← matchClass1 isStrokeChar r2
  pure (g1, g2)

/-- The ordered-rule regex of `config.py`: `(\\w+)\\(([a-z,]+)\\) -> ([A-Z-*#]+)`. -/
def matchOrderedLine (cs : List Char) : Option (List Char × List Char × List Char) := do
  let (g1, r1) ← matchClass1 isWordChar cs
  let r2 ← matchLit litLParen r1
  let (g2, r3) ← matchClass1 isLowerComma r2
  let r4 ← matchLit litRParenArrow r3
  let (g3, _) ← matchClass1 isStrokeChar r4
  pure (g1, g2, g3)

/-- The button-rename regex of `config.py`: `button (\\d+) is ([a-z0-9]+)`. -/
def matchButtonLine (cs : List Char) : Option (List Char × List Char) := do
  let r1 ← matchLit litButton cs
  let (g1, r2) ← matchClass1 Char.isDigit r1
  let r3 ← matchLit litIs r2
  let (g2, _) ← matchClass1 isLowerDigit r3
  pure (g1, g2)

/-- The hat-rename regex of `config.py`: `hat (\\d+) is ([a-z0-9]+)`. -/
def matchHatLine (cs : List Char) : Option (List Char × List Char) := do
  let r1 ← matchLit litHat cs
  let (g1, r2) ← matchClass1 Char.isDigit r1
  let r3 ← matchLit litIs r2
  let (g2, _) ← matchClass1 isLowerDigit r3
  pure (g1, g2)

/-- The trigger-rename regex of `config.py`: `trigger on axis (\\d+) is ([a-z0-9]+)`. -/
def matchTriggerLine (cs : List Char) : Option (List Char × List Char) := do
  let r1 ← matchLit litTriggerOnAxis cs
  let (g1, r2) ← matchClass1 Char.isDigit r1
  let r3 ← matchLit litIs r2
  let (g2, _) ← matchClass1 isLowerDigit r3
  pure (g1, g2)

/-- Decimal value of a digit string (`int(...)` on a `\\d+` capture). -/
def natOfDigits (cs : List Char) : ℕ :=
  cs.foldl (fun n c => 10 * n + (c.toNat - 48)) 0

/-- Python's `float(...)` applied to a capture of the class `[0-9-.]+`:
within that alphabet a string parses iff it is an optional leading minus,
then digits with at most one dot, at least one digit overall; everything else
(`"-"`, `"1-2"`, `"1.2.3"`, `"."`, ...) raises `ValueError`.  The value is
modelled exactly as a rational. -/
def parsePyFloat (cs : List Char) : Option ℚ :=
  let (neg, cs1) : Bool × List Char :=
    match cs with
    | '-' :: rest => (true, rest)
    | other => (false, other)
  let (ipart, cs2) := takeClass Char.isDigit cs1
  let sgn : ℚ := if neg then -1 else 1
  match cs2 with
  | [] => if ipart.isEmpty then none else some (sgn * natOfDigits ipart)
  | '.' :: rest =>
    let (fpart, cs3) := takeClass Char.isDigit rest
    if cs3.isEmpty = false then none
    else if ipart.isEmpty && fpart.isEmpty then none
    else some (sgn * ((natOfDigits ipart : ℚ) +
      (natOfDigits fpart : ℚ) / (10 : ℚ) ^ fpart.length))
  | _ => none

/-- `Stick` from `config.py`. -/
structure Stick where
  name : String
  x_axis : String
  y_axis : String
  offset : ℚ
  segments : List String
deriving DecidableEq

/-- `ButtonOrHat` from `config.py`. -/
structure ButtonOrHat where
  name : String
  button : String
deriving DecidableEq

/-- `Trigger` from `config.py`. -/
structure Trigger where
  name : String
  axis : String
deriving DecidableEq

/-- `Mappings` from `config.py`; the dicts are association lists. -/
structure Mappings where
  sticks : List (String × Stick)
  buttons_and_hats : List (String × ButtonOrHat)
  triggers : List (String × Trigger)
  unordered_mappings : List (List String × List String)
  ordered_mappings : List (List String × List String)
deriving DecidableEq

/-- `Mappings.empty` from `config.py`. -/
def Mappings.empty : Mappings :=
  { sticks := []
    buttons_and_hats := []
    triggers := []
    unordered_mappings := []
    ordered_mappings := [] }

def aPrefix : String := "a"

def bPrefix : String := "b"

def hPrefix : String := "h"

/-- One iteration of the line loop of `Mappings.parse` from `config.py`.
Python exceptions are modelled by `Except`: a stick-declaration line whose
offset capture is not a valid float literal raises `ValueError` from
`float(match[5])`, modelled as `.error` carrying the offending capture.  The
final fallback prints a diagnostic and skips the line. -/
def parseMappingsLine (result : Mappings) (line : List Char) : Except String Mappings :=
  if line.isEmpty || (matchLit commentChars line).isSome then .ok result
  else
    match matchStickLine line with
    | some (g1, g2, g3, g4, g5) =>
      match parsePyFloat g5 with
      | some off =>
        let stick : Stick :=
          { name := String.mk g1
            x_axis := aPrefix ++ String.mk g3
            y_axis := aPrefix ++ String.mk g4
            offset := off
            segments := (splitOnChar ',' g2).map String.mk }
        .ok { result with sticks := dictSet result.sticks stick.name stick }
      | none => .error (String.mk g5)
    | none =>
    match matchUnorderedLine line with
    | some (g1, g2) =>
      .ok { result with unordered_mappings := result.unordered_mappings ++
        [((splitOnChar ',' g1).map String.mk, get_keys_for_stroke (String.mk g2))] }
    | none =>
    match matchOrderedLine line with
    | some (g1, g2, g3) =>
      let key := (splitOnChar ',' g2).map fun pos => String.mk g1 ++ String.mk pos
      let value := get_keys_for_stroke (String.mk g3)
      .ok { result with ordered_mappings := dictSet result.ordered_mappings key value }
    | none =>
    match matchButtonLine line with
    | some (g1, g2) =>
      let button : ButtonOrHat := { name := String.mk g2, button := bPrefix ++ String.mk g1 }
      .ok { result with buttons_and_hats := dictSet result.buttons_and_hats button.button button }
    | none =>
    match matchHatLine line with
    | some (g1, g2) =>
      let button : ButtonOrHat := { name := String.mk g2, button := hPrefix ++ String.mk g1 }
      .ok { result with buttons_and_hats := dictSet result.buttons_and_hats button.button button }
    | none =>
    match matchTriggerLine line with
    | some (g1, g2) =>
      let trigger : Trigger := { name := String.mk g2, axis := aPrefix ++ String.mk g1 }
      .ok { result with triggers := dictSet result.triggers trigger.axis trigger }
    | none => .ok result

/-- The line loop of `Mappings.parse`: a raised exception aborts the rest of
the loop (propagated `.error`). -/
def parseLines (m : Mappings) : List (List Char) → Except String Mappings
  | [] => .ok m
  | line :: rest =>
    match parseMappingsLine m line with
    | .ok m' => parseLines m' rest
    | .error e => .error e

/-- `Mappings.parse` from `config.py`. -/
def Mappings.parse (text : String) : Except String Mappings :=
  parseLines Mappings.empty (splitOnChar '\n' text.toList)

/-- `True` when a line matches none of the six grammar patterns — the source
then prints a diagnostic and skips it. -/
def lineUnrecognized (line : List Char) : Bool :=
  (matchStickLine line).isNone && (matchUnorderedLine line).isNone &&
    (matchOrderedLine line).isNone && (matchButtonLine line).isNone &&
    (matchHatLine line).isNone && (matchTriggerLine line).isNone

/-- `True` exactly on successful parses (Python: no exception raised). -/
def exOk {ε α : Type} : Except ε α → Bool
  | .ok _ => true
  | .error _ => false

/-- A grammar whose stick line carries an offset field (`-`) that matches the
`[0-9-.]+` capture but is not a valid Python float literal. -/
def exampleBadGrammar : String := "l stick has segments (a) on axes 0 and 1 offset by - degrees"

/-- The unordered-rule line `a -> -Z`. -/
def exampleRuleLine : List Char := ( r"a -> -Z" ).toList

/-- A line no grammar pattern matches. -/
def exampleJunkLine : List Char := ( r"garbage???" ).toList

/-- A grammar mixing one unordered rule, one unparseable line and one ordered
rule. -/
def exampleMixedGrammar : String := "a -> -Z\ngarbage???\nleft(d,dl) -> TW-"

theorem tau_pos : 0 < tau := by
  have h := Real.pi_pos
  unfold tau
  linarith

theorem tau_ne_zero : tau ≠ 0 := ne_of_gt tau_pos

theorem whileNeg_of_nonneg {a : ℝ} (h : 0 ≤ a) : whileNeg a = a := by
  rw [whileNeg, dif_neg (not_lt.mpr h)]

theorem whileNeg_nonneg (a : ℝ) : 0 ≤ whileNeg a := by
  rw [whileNeg]
  split_ifs with h
  · exact whileNeg_nonneg (a + tau)
  · exact not_lt.mp h
termination_by (⌈-a / tau⌉).toNat
decreasing_by
  have hpos : (0 : ℝ) < -a := by linarith
  have hceil : 0 < ⌈-a / tau⌉ := by
    rw [Int.ceil_pos]
    exact div_pos hpos tau_pos
  have hneg : -(a + tau) = -a - tau := by ring
  have hstep : -(a + tau) / tau = -a / tau - 1 := by
    rw [hneg, sub_div, div_self tau_ne_zero]
  have : ⌈-(a + tau) / tau⌉ = ⌈-a / tau⌉ - 1 := by
    rw [hstep, Int.ceil_sub_one]
  omega

theorem whileNeg_congr (a : ℝ) : ∃ k : ℤ, whileNeg a = a + k * tau := by
  rw [whileNeg]
  split_ifs with h
  · obtain ⟨k, hk⟩ := whileNeg_congr (a + tau)
    exact ⟨k + 1, by rw [hk]; push_cast; ring⟩
  · exact ⟨0, by ring⟩
termination_by (⌈-a / tau⌉).toNat
decreasing_by
  have hpos : (0 : ℝ) < -a := by linarith
  have hceil : 0 < ⌈-a / tau⌉ := by
    rw [Int.ceil_pos]
    exact div_pos hpos tau_pos
  have hneg : -(a + tau) = -a - tau := by ring
  have hstep : -(a + tau) / tau = -a / tau - 1 := by
    rw [hneg, sub_div, div_self tau_ne_zero]
  have : ⌈-(a + tau) / tau⌉ = ⌈-a / tau⌉ - 1 := by
    rw [hstep, Int.ceil_sub_one]
  omega

theorem whileGt_of_le {a : ℝ} (h : a ≤ tau) : whileGt a = a := by
  rw [whileGt, dif_neg (not_lt.mpr h)]

theorem whileGt_le (a : ℝ) : whileGt a ≤ tau := by
  rw [whileGt]
  split_ifs with h
  · exact whileGt_le (a - tau)
  · exact not_lt.mp h
termination_by (⌈(a - tau) / tau⌉).toNat
decreasing_by
  have hpos : (0 : ℝ) < a - tau := by linarith
  have hceil : 0 < ⌈(a - tau) / tau⌉ := by
    rw [Int.ceil_pos]
    exact div_pos hpos tau_pos
  have hstep : (a - tau - tau) / tau = (a - tau) / tau - 1 := by
    rw [sub_div, div_self tau_ne_zero]
  have : ⌈(a - tau - tau) / tau⌉ = ⌈(a - tau) / tau⌉ - 1 := by
    rw [hstep, Int.ceil_sub_one]
  omega

theorem whileGt_congr (a : ℝ) : ∃ k : ℤ, whileGt a = a + k * tau := by
  rw [whileGt]
  split_ifs with h
  · obtain ⟨k, hk⟩ := whileGt_congr (a - tau)
    exact ⟨k - 1, by rw [hk]; push_cast; ring⟩
  · exact ⟨0, by ring⟩
termination_by (⌈(a - tau) / tau⌉).toNat
decreasing_by
  have hpos : (0 : ℝ) < a - tau := by linarith
  have hceil : 0 < ⌈(a - tau) / tau⌉ := by
    rw [Int.ceil_pos]
    exact div_pos hpos tau_pos
  have hstep : (a - tau - tau) / tau = (a - tau) / tau - 1 := by
    rw [sub_div, div_self tau_ne_zero]
  have : ⌈(a - tau - tau) / tau⌉ = ⌈(a - tau) / tau⌉ - 1 := by
    rw [hstep, Int.ceil_sub_one]
  omega

theorem segOfAngle_eq_floor_emod (n : ℕ) (θ : ℝ) :
    segOfAngle n θ = ⌊θ / tau * n⌋ % n := by
  unfold segOfAngle Int.fract
  have h : (θ / tau - ⌊θ / tau⌋) * n = θ / tau * n - (⌊θ / tau⌋ * n : ℤ) := by
    push_cast
    ring
  rw [h, Int.floor_sub_int, sub_eq_add_neg, ← neg_mul, Int.add_mul_emod_self]

theorem floor_norm_emod (θ : ℝ) (n : ℕ) :
    ⌊whileGt (whileNeg θ) / tau * n⌋ % n = segOfAngle n θ := by
  obtain ⟨k₁, hk₁⟩ := whileNeg_congr θ
  obtain ⟨k₂, hk₂⟩ := whileGt_congr (whileNeg θ)
  have hsum : whileGt (whileNeg θ) = θ + (k₁ + k₂) * tau := by
    rw [hk₂, hk₁]
    push_cast
    ring
  have hdiv : whileGt (whileNeg θ) / tau * n = θ / tau * n + ((k₁ + k₂) * n : ℤ) := by
    rw [hsum, add_div, mul_div_assoc, div_self tau_ne_zero]
    push_cast
    ring
  rw [hdiv, Int.floor_add_int, segOfAngle_eq_floor_emod, Int.add_mul_emod_self]

theorem hypot_x_zero (x : ℝ) : hypot x 0 = |x| := by
  unfold hypot
  rw [show x ^ 2 + 0 ^ 2 = x ^ 2 by ring]
  exact Real.sqrt_sq_eq_abs x

theorem atan2_zero_pos {x : ℝ} (hx : 0 < x) : atan2 0 x = 0 := by
  unfold atan2
  have hx' : (⟨x, 0⟩ : ℂ) = (x : ℂ) := by
    apply Complex.ext <;> simp
  rw [hx']
  exact Complex.arg_ofReal_of_nonneg hx.le

/-- Evaluation of the quantizer at a sample on the positive x-axis with a
zero offset: the angle is `0`, both normalization loops are no-ops, and the
returned segment index is `0`. -/
theorem stick_segment_pos_x {dz x : ℝ} (n : ℕ) (hx : 0 < x)
    (hdz : ¬hypot x 0 < dz * Real.sqrt 2) :
    stick_segment dz 0 n x 0 = some 0 := by
  unfold stick_segment
  rw [if_neg hdz]
  have h0 : atan2 0 x - 0 / 360 * tau = 0 := by
    rw [atan2_zero_pos hx]
    ring
  simp only [h0]
  rw [whileNeg_of_nonneg le_rfl, whileGt_of_le tau_pos.le]
  norm_num

theorem segOfAngle_add_sixth (θ : ℝ) :
    segOfAngle 6 (θ + tau / 6) = (segOfAngle 6 θ + 1) % 6 := by
  rw [segOfAngle_eq_floor_emod, segOfAngle_eq_floor_emod]
  have htau := tau_ne_zero
  have h : (θ + tau / 6) / tau * (6 : ℕ) = θ / tau * (6 : ℕ) + (1 : ℤ) := by
    field_simp
    ring
  rw [h, Int.floor_add_int]
  omega

theorem segOfAngle_add_tau (θ : ℝ) :
    segOfAngle 6 (θ + tau) = segOfAngle 6 θ := by
  rw [segOfAngle_eq_floor_emod, segOfAngle_eq_floor_emod]
  have htau := tau_ne_zero
  have h : (θ + tau) / tau * (6 : ℕ) = θ / tau * (6 : ℕ) + (6 : ℤ) := by
    field_simp
    ring
  rw [h, Int.floor_add_int]
  omega

theorem mem_removeAll {x : String} {s : Finset String} {chord : List String} :
    x ∈ removeAll s chord ↔ x ∈ s ∧ x ∉ chord := by
  induction chord generalizing s with
  | nil => simp [removeAll]
  | cons a rest ih =>
    simp only [removeAll, List.foldl_cons] at *
    rw [ih]
    simp only [Finset.mem_erase, List.mem_cons]
    tauto

theorem buttonsToKeysGo_pos {chord result : List String}
    {rest : List (List String × List String)} {in_keys keys : Finset String}
    (h : ∀ x ∈ chord, x ∈ in_keys) :
    buttonsToKeysGo ((chord, result) :: rest) in_keys keys =
      buttonsToKeysGo rest (removeAll in_keys chord) (keys ∪ result.toFinset) := by
  rw [buttonsToKeysGo, if_pos h]

theorem buttonsToKeysGo_neg {chord result : List String}
    {rest : List (List String × List String)} {in_keys keys : Finset String}
    (h : ¬∀ x ∈ chord, x ∈ in_keys) :
    buttonsToKeysGo ((chord, result) :: rest) in_keys keys =
      buttonsToKeysGo rest in_keys keys := by
  rw [buttonsToKeysGo, if_neg h]

theorem dictGet_dictSet_self {α β : Type} [DecidableEq α]
    (d : List (α × β)) (key : α) (v : β) :
    dictGet (dictSet d key v) key = some v := by
  induction d with
  | nil => simp [dictGet, dictSet]
  | cons p rest ih =>
    obtain ⟨k, w⟩ := p
    by_cases h : key = k
    · subst h
      simp [dictGet, dictSet]
    · simp [dictGet, dictSet, h, ih]

theorem dictGet_dictSet_ne {α β : Type} [DecidableEq α]
    (d : List (α × β)) (key other : α) (v : β) (h : other ≠ key) :
    dictGet (dictSet d key v) other = dictGet d other := by
  induction d with
  | nil => simp [dictGet, dictSet, h]
  | cons p rest ih =>
    obtain ⟨k, w⟩ := p
    by_cases hk : key = k
    · subst hk
      simp [dictGet, dictSet, h]
    · by_cases ho : other = k
      · subst ho
        simp [dictGet, dictSet, hk]
      · simp [dictGet, dictSet, hk, ho, ih]

theorem appendSegment_getLast? (path : List String) (name : String) :
    (appendSegment path name).getLast? = some name := by
  unfold appendSegment
  split_ifs with h
  · exact List.getLast?_concat path
  · push_neg at h
    exact h.2

theorem appendSegment_idem (path : List String) (name : String) :
    appendSegment (appendSegment path name) name = appendSegment path name := by
  have hlast := appendSegment_getLast? path name
  have hne : (appendSegment path name).length ≠ 0 := by
    intro hlen
    rw [List.length_eq_zero] at hlen
    rw [hlen] at hlast
    simp at hlast
  rw [appendSegment]
  rw [if_neg]
  push_neg
  exact ⟨hne, hlast⟩

theorem check_stick_path_idem (p : Params) (st : MachineState) (stick : String)
    (lr ud : ℚ) :
    pathOf (check_stick p (check_stick p st stick lr ud) stick lr ud) stick =
      pathOf (check_stick p st stick lr ud) stick := by
  by_cases hdz : hypot lr ud < (p.stick_dead_zone : ℝ) * Real.sqrt 2
  · have h1 : check_stick p st stick lr ud = st := by
      rw [check_stick, if_pos hdz]
    rw [h1, h1]
  · rw [check_stick, if_neg hdz]
    cases hc : dictGet p.stick_segment_counts stick with
    | none =>
      rw [check_stick, if_neg hdz, hc]
    | some segment_count =>
      cases ho : dictGet p.stick_offsets stick with
      | none =>
        rw [check_stick, if_neg hdz, hc, ho]
      | some offset0 =>
        cases hd : dictGet p.stick_directions stick with
        | none =>
          rw [check_stick, if_neg hdz, hc, ho, hd]
        | some directions =>
          rw [check_stick, if_neg hdz, hc, ho, hd]
          simp only [pathOf, dictGetD, dictGet_dictSet_self, Option.getD_some]
          rw [appendSegment_idem]

/-- C1: `buttons_to_keys` is greedy, order-sensitive and consuming: a symbol
consumed by an earlier unordered rule cannot satisfy a later rule.  For rules
`({a,b} -> X)` then `({a} -> Y)` in that order, input `{a,b}` resolves to `X`
only, and input `{a}` alone resolves to `Y`. -/
theorem C1_unordered_greedy_consuming :
    ∀ (a b : String) (X Y : List String), a ≠ b →
      buttons_to_keys {a, b} [ ([a, b], X), ([a], Y) ] = X.toFinset ∧
      buttons_to_keys {a} [ ([a, b], X), ([a], Y) ] = Y.toFinset := by
  intro a b X Y hab
  constructor
  · show buttonsToKeysGo _ _ _ = _
    rw [buttonsToKeysGo_pos (by intro x hx; simpa using hx)]
    have hrm : removeAll ({a, b} : Finset String) [a, b] = ∅ := by
      show Finset.erase (Finset.erase {a, b} a) b = ∅
      rw [show ({a, b} : Finset String) = insert a {b} from rfl,
        Finset.erase_insert (by simp [hab]), Finset.erase_singleton]
    rw [hrm, buttonsToKeysGo_neg (by simp), buttonsToKeysGo, Finset.empty_union]
  · show buttonsToKeysGo _ _ _ = _
    rw [buttonsToKeysGo_neg (by simp [Ne.symm hab]),
      buttonsToKeysGo_pos (by intro x hx; simpa using hx)]
    have hrm : removeAll ({a} : Finset String) [a] = ∅ := by
      show Finset.erase {a} a = ∅
      exact Finset.erase_singleton a
    rw [hrm, buttonsToKeysGo, Finset.empty_union]

theorem C1_unordered_greedy_consuming_witness :
    buttons_to_keys { r"a", r"b" } [ ([ r"a", r"b" ], [ r"X-" ]), ([ r"a" ], [ r"Y-" ]) ] =
        [ r"X-" ].toFinset ∧
      buttons_to_keys { r"a" } [ ([ r"a", r"b" ], [ r"X-" ]), ([ r"a" ], [ r"Y-" ]) ] =
        [ r"Y-" ].toFinset :=
  C1_unordered_greedy_consuming (r"a") (r"b") [ r"X-" ] [ r"Y-" ] (by decide)

/-- C3: the per-stick pending path collapses immediate repeats: appending a
segment equal to the current last element leaves the path unchanged (so a
repeated identical stick sample is a no-op on the path), and feeding the
stick-qualified segment sequence `[d, d, dl, dl, d]` yields the path
`[d, dl, d]`. -/
theorem C3_path_collapses_repeats :
    (∀ (path : List String) (name : String),
        appendSegment (appendSegment path name) name = appendSegment path name) ∧
    (∀ (p : Params) (st : MachineState) (stick : String) (lr ud : ℚ),
        pathOf (check_stick p (check_stick p st stick lr ud) stick lr ud) stick =
          pathOf (check_stick p st stick lr ud) stick) ∧
    [ r"leftd", r"leftd", r"leftdl", r"leftdl", r"leftd" ].foldl appendSegment [] =
      [ r"leftd", r"leftdl", r"leftd" ] :=
  ⟨appendSegment_idem, check_stick_path_idem, by decide⟩

/-- C7: when `maybe_complete_stroke` runs with both `unsequenced_buttons` and
`pending_keys` empty, it is a strict no-op (the state, output included, is
returned unchanged); and more generally, whenever the resolved final key set
is empty, nothing is emitted. -/
theorem C7_empty_completion_suppressed :
    (∀ (p : Params) (st : MachineState),
        st.unsequenced_buttons = ∅ → st.pending_keys = ∅ →
        maybe_complete_stroke p st = st) ∧
    (∀ (p : Params) (st : MachineState),
        buttons_to_keys st.unsequenced_buttons p.unordered_mappings ∪ st.pending_keys = ∅ →
        (maybe_complete_stroke p st).output = st.output) := by
  constructor
  · intro p st h1 h2
    rw [maybe_complete_stroke, if_pos ⟨h1, h2⟩]
  · intro p st hkeys
    rw [maybe_complete_stroke]
    split_ifs with g1 g2 g3 g4
    · rfl
    · rfl
    · rfl
    · rfl
    · simp only [hkeys, if_pos]

theorem C7_empty_completion_suppressed_witness :
    maybe_complete_stroke
        { stroke_end_threshold := 2/5
          stick_dead_zone := 3/5
          stick_segment_counts := []
          stick_offsets := []
          stick_directions := []
          unordered_mappings := []
          ordered_mappings := [] } initialState = initialState ∧
    (maybe_complete_stroke
        { stroke_end_threshold := 2/5
          stick_dead_zone := 3/5
          stick_segment_counts := []
          stick_offsets := []
          stick_directions := []
          unordered_mappings := []
          ordered_mappings := [] }
        { initialState with unsequenced_buttons := { r"guide" } }).output =
      ({ initialState with unsequenced_buttons := { r"guide" } } : MachineState).output :=
  ⟨C7_empty_completion_suppressed.1 _ initialState rfl rfl,
    C7_empty_completion_suppressed.2 _ _ (by decide)⟩

theorem resolveStick_output (p : Params) (st : MachineState) (stick : String) :
    (resolveStick p st stick).output = st.output := by
  rw [resolveStick]
  split_ifs with hc
  · rfl
  · cases hm : dictGet p.ordered_mappings (dictGetD st.pending_stick_movements stick []) with
    | some r => simp only [hm]
    | none => simp only [hm]

/-- C2: with a stick at rest, `maybe_complete_ordered_chord` (through its
per-stick step `resolveStick`) looks the stick's pending path up as an exact
key of the ordered mappings; a hit clears the path and merges the mapped
keys into `pending_keys`; a miss adds every path symbol to the unsequenced
set and clears the path.  A stick that is not at rest is skipped, resolving
one stick never touches another stick's path, and the event resolves the two
sticks independently, left then right. -/
theorem C2_ordered_chord_resolution :
    ∀ (p : Params) (st : MachineState) (stick : String),
      ((st.stick_states.any fun kv =>
          kv.1.startsWith stick && decide (|kv.2| > p.stroke_end_threshold)) = false →
        (∀ result, dictGet p.ordered_mappings (pathOf st stick) = some result →
          (resolveStick p st stick).pending_keys = st.pending_keys ∪ result.toFinset ∧
          pathOf (resolveStick p st stick) stick = [] ∧
          (resolveStick p st stick).unsequenced_buttons = st.unsequenced_buttons) ∧
        (dictGet p.ordered_mappings (pathOf st stick) = none →
          (resolveStick p st stick).unsequenced_buttons =
            st.unsequenced_buttons ∪ (pathOf st stick).toFinset ∧
          pathOf (resolveStick p st stick) stick = [] ∧
          (resolveStick p st stick).pending_keys = st.pending_keys)) ∧
      ((st.stick_states.any fun kv =>
          kv.1.startsWith stick && decide (|kv.2| > p.stroke_end_threshold)) = true →
        resolveStick p st stick = st) ∧
      (∀ other, other ≠ stick →
        pathOf (resolveStick p st stick) other = pathOf st other) ∧
      maybe_complete_ordered_chord p st =
        resolveStick p (resolveStick p st (r"left")) (r"right") := by
  intro p st stick
  refine ⟨fun hrest => ⟨?_, ?_⟩, ?_, ?_, rfl⟩
  · intro result hres
    simp only [pathOf, dictGetD] at hres
    rw [resolveStick, if_neg (by simp [hrest])]
    simp only [pathOf, dictGetD, hres, dictGet_dictSet_self, Option.getD_some]
    exact ⟨trivial, trivial, trivial⟩
  · intro hres
    simp only [pathOf, dictGetD] at hres
    rw [resolveStick, if_neg (by simp [hrest])]
    simp only [pathOf, dictGetD, hres, dictGet_dictSet_self, Option.getD_some]
    exact ⟨trivial, trivial, trivial⟩
  · intro hrest
    rw [resolveStick, if_pos hrest]
  · intro other hother
    rw [resolveStick]
    split_ifs with hc
    · rfl
    · simp only [pathOf, dictGetD]
      cases hm : dictGet p.ordered_mappings ((dictGet st.pending_stick_movements stick).getD []) with
      | some r =>
        simp only [hm, dictGet_dictSet_ne _ _ _ _ hother]
      | none =>
        simp only [hm, dictGet_dictSet_ne _ _ _ _ hother]

theorem C2_ordered_chord_resolution_witness :
    ((resolveStick exampleParamsOrdered exampleChordState (r"left")).pending_keys =
        exampleChordState.pending_keys ∪ [ r"T-", r"W-" ].toFinset ∧
      pathOf (resolveStick exampleParamsOrdered exampleChordState (r"left")) (r"left") = [] ∧
      (resolveStick exampleParamsOrdered exampleChordState (r"left")).unsequenced_buttons =
        exampleChordState.unsequenced_buttons) ∧
    ((resolveStick exampleParamsEmpty exampleChordState (r"left")).unsequenced_buttons =
        exampleChordState.unsequenced_buttons ∪
          (pathOf exampleChordState (r"left")).toFinset ∧
      pathOf (resolveStick exampleParamsEmpty exampleChordState (r"left")) (r"left") = [] ∧
      (resolveStick exampleParamsEmpty exampleChordState (r"left")).pending_keys =
        exampleChordState.pending_keys) ∧
    pathOf (resolveStick exampleParamsOrdered exampleChordState (r"left")) (r"right") =
      pathOf exampleChordState (r"right") :=
  ⟨((C2_ordered_chord_resolution exampleParamsOrdered exampleChordState (r"left")).1
      (by decide)).1 [ r"T-", r"W-" ] (by decide),
    ((C2_ordered_chord_resolution exampleParamsEmpty exampleChordState (r"left")).1
      (by decide)).2 (by decide),
    (C2_ordered_chord_resolution exampleParamsOrdered exampleChordState
      (r"left")).2.2.1 (r"right") (by decide)⟩

/-- C6: no stroke is notified while the completion predicate is blocked — a
stick magnitude above the stroke-end threshold, a trigger value above zero,
or a held button each prevent emission; a button press by itself never
notifies, and neither does ordered-chord resolution.  In the single-button
scenario with the rule `a -> -Z`, pressing then releasing `a` emits exactly
one stroke `{-Z}`, and nothing is emitted before the release. -/
theorem C6_no_emission_while_blocked :
    (∀ (p : Params) (st : MachineState),
        ((st.stick_states.any fun kv => decide (|kv.2| > p.stroke_end_threshold)) = true ∨
          (st.trigger_states.any fun kv => decide (kv.2 > 0)) = true ∨
          st.pressed_buttons ≠ ∅) →
        (maybe_complete_stroke p st).output = st.output) ∧
    (∀ (p : Params) (st : MachineState) (button : String),
        (handle_button p st button true).output = st.output) ∧
    (∀ (p : Params) (st : MachineState),
        (maybe_complete_ordered_chord p st).output = st.output) ∧
    ((handle_button exampleParamsButtonA initialState (r"a") true).output = [] ∧
      (handle_button exampleParamsButtonA
          (handle_button exampleParamsButtonA initialState (r"a") true)
          (r"a") false).output = [ { r"-Z" } ]) := by
  refine ⟨?_, fun p st button => rfl, ?_, by decide, by decide⟩
  · intro p st hblocked
    rw [maybe_complete_stroke]
    split_ifs with g1 g2 g3 g4
    · rfl
    · rfl
    · rfl
    · rfl
    · rcases hblocked with h | h | h
      · exact absurd h g2
      · exact absurd h g3
      · exact absurd h g4
  · intro p st
    show (resolveStick p (resolveStick p st (r"left")) (r"right")).output = st.output
    rw [resolveStick_output, resolveStick_output]

theorem C6_no_emission_while_blocked_witness :
    (maybe_complete_stroke exampleParamsButtonA
        { initialState with pressed_buttons := { r"a" }
                            unsequenced_buttons := { r"a" } }).output =
      ({ initialState with pressed_buttons := { r"a" }
                           unsequenced_buttons := { r"a" } } : MachineState).output :=
  C6_no_emission_while_blocked.1 exampleParamsButtonA _ (Or.inr (Or.inr (by decide)))

/-- C4 (counterexample): the claim that a sample with magnitude exactly
`dead_zone * sqrt 2` returns none is false: with `dead_zone = 1` the sample
`(sqrt 2, 0)` has magnitude exactly `1 * sqrt 2`, yet the quantizer returns
`some 0` because the source's dead-zone comparison is strict. -/
theorem C4_boundary_returns_segment :
    hypot (Real.sqrt 2) 0 = 1 * Real.sqrt 2 ∧
      stick_segment 1 0 1 (Real.sqrt 2) 0 ≠ none := by
  have hs2 : (0 : ℝ) < Real.sqrt 2 := Real.sqrt_pos.mpr (by norm_num)
  have hh : hypot (Real.sqrt 2) 0 = 1 * Real.sqrt 2 := by
    rw [hypot_x_zero, abs_of_nonneg hs2.le, one_mul]
  refine ⟨hh, ?_⟩
  rw [stick_segment_pos_x 1 hs2 (by rw [hh]; exact lt_irrefl _)]
  simp

/-- C4 (amended): the dead-zone test of the quantizer is strict: a sample
whose magnitude is strictly below `dead_zone * sqrt 2` yields none, and a
sample whose magnitude is at or above that bound (including exactly at the
boundary) yields a segment. -/
theorem C4_dead_zone_strict :
    ∀ (dz offset : ℝ) (n : ℕ) (lr ud : ℝ), 1 ≤ n →
      (hypot lr ud < dz * Real.sqrt 2 → stick_segment dz offset n lr ud = none) ∧
      (dz * Real.sqrt 2 ≤ hypot lr ud → ∃ s, stick_segment dz offset n lr ud = some s) := by
  intro dz offset n lr ud hn
  constructor
  · intro h
    rw [stick_segment, if_pos h]
  · intro h
    rw [stick_segment, if_neg (not_lt.mpr h)]
    exact ⟨_, rfl⟩

theorem C4_dead_zone_strict_witness :
    (hypot 0 0 < 1 * Real.sqrt 2 ∧ stick_segment 1 0 1 0 0 = none) ∧
      (0 * Real.sqrt 2 ≤ hypot 1 0 ∧ ∃ s, stick_segment 0 0 1 1 0 = some s) := by
  have h00 : hypot 0 0 < 1 * Real.sqrt 2 := by
    rw [hypot_x_zero, abs_zero, one_mul]
    exact Real.sqrt_pos.mpr (by norm_num)
  have h10 : (0 : ℝ) * Real.sqrt 2 ≤ hypot 1 0 := by
    rw [hypot_x_zero, abs_one, zero_mul]
    norm_num
  exact ⟨⟨h00, (C4_dead_zone_strict 1 0 1 0 0 le_rfl).1 h00⟩,
    ⟨h10, (C4_dead_zone_strict 0 0 1 1 0 le_rfl).2 h10⟩⟩

/-- C10: for every positive segment count, whenever `stick_segment` returns a
value it lies in `[0, segment_count)` — the trailing `% segment_count`
reduces even the boundary case where the normalization loop stops at an
angle of exactly `2π` (where the floor equals `segment_count`). -/
theorem C10_segment_in_range :
    ∀ (dz offset : ℝ) (n : ℕ) (lr ud : ℝ) (v : ℤ),
      1 ≤ n → stick_segment dz offset n lr ud = some v → 0 ≤ v ∧ v < n := by
  intro dz offset n lr ud v hn hv
  rw [stick_segment] at hv
  have hnpos : (0 : ℤ) < (n : ℤ) := by exact_mod_cast hn
  split_ifs at hv with hdz
  simp only [Option.some.injEq] at hv
  constructor
  · rw [← hv]
    exact Int.emod_nonneg _ (ne_of_gt hnpos)
  · rw [← hv]
    exact Int.emod_lt_of_pos _ hnpos

theorem C10_segment_in_range_witness : (0 : ℤ) ≤ 0 ∧ (0 : ℤ) < (1 : ℕ) :=
  C10_segment_in_range 0 0 1 1 0 0 (by norm_num)
    (stick_segment_pos_x 1 one_pos
      (by rw [hypot_x_zero, abs_one, zero_mul]; norm_num))

/-- C5: outside the dead zone the quantizer returns exactly the spec formula —
the angle `atan2(ud, lr) - offset_radians` normalized into `[0, 2π)`, floored
against the segment arc and reduced `mod segment_count` (`segOfAngle`); for
6 equal segments at zero offset a sample at angle `0` lands in segment `0`,
adding exactly `60°` to the angle advances the returned index by exactly `1`
(mod 6), and adding a full turn returns the same index. -/
theorem C5_quantizer_formula :
    (∀ (dz offset : ℝ) (n : ℕ) (lr ud : ℝ), 1 ≤ n →
        ¬hypot lr ud < dz * Real.sqrt 2 →
        stick_segment dz offset n lr ud =
          some (segOfAngle n (atan2 ud lr - offset / 360 * tau))) ∧
    (∀ (dz lr : ℝ), 0 < lr → ¬hypot lr 0 < dz * Real.sqrt 2 →
        stick_segment dz 0 6 lr 0 = some 0) ∧
    (∀ θ : ℝ, segOfAngle 6 (θ + tau / 6) = (segOfAngle 6 θ + 1) % 6) ∧
    (∀ θ : ℝ, segOfAngle 6 (θ + tau) = segOfAngle 6 θ) := by
  refine ⟨?_, fun dz lr hlr hdz => stick_segment_pos_x 6 hlr hdz,
    segOfAngle_add_sixth, segOfAngle_add_tau⟩
  intro dz offset n lr ud hn hdz
  rw [stick_segment, if_neg hdz]
  exact congrArg some (floor_norm_emod _ n)

theorem C5_quantizer_formula_witness :
    stick_segment 0 0 6 1 0 = some (segOfAngle 6 (atan2 0 1 - 0 / 360 * tau)) ∧
      stick_segment 0 0 6 1 0 = some 0 := by
  have hdz : ¬hypot 1 0 < 0 * Real.sqrt 2 := by
    rw [hypot_x_zero, abs_one, zero_mul]
    norm_num
  exact ⟨C5_quantizer_formula.1 0 0 6 1 0 (by norm_num) hdz,
    C5_quantizer_formula.2.1 0 1 one_pos hdz⟩

theorem strokeKeysGo_passed (cs : List Char) (h : '-' ∉ cs) :
    strokeKeysGo cs true = cs.map specRightKey := by
  induction cs with
  | nil => rfl
  | cons c rest ih =>
    have hc : c ≠ '-' := fun hh => h (hh ▸ List.mem_cons_self c rest)
    have hr : '-' ∉ rest := fun hh => h (List.mem_cons_of_mem _ hh)
    rw [strokeKeysGo, if_neg hc]
    by_cases hm : c ∈ no_hyphen_keys
    · rw [if_pos hm, ih hr, List.map_cons, specRightKey, if_pos hm]
    · rw [if_neg hm, if_pos rfl, ih hr, List.map_cons, specRightKey, if_neg hm]

theorem strokeKeysGo_split (pre post : List Char) (hpre : '-' ∉ pre)
    (hpost : '-' ∉ post) :
    strokeKeysGo (pre ++ '-' :: post) false =
      pre.map specLeftKey ++ post.map specRightKey := by
  induction pre with
  | nil =>
    simp only [List.nil_append, List.map_nil]
    rw [strokeKeysGo, if_pos rfl]
    exact strokeKeysGo_passed post hpost
  | cons c rest ih =>
    have hc : c ≠ '-' := fun hh => hpre (hh ▸ List.mem_cons_self c rest)
    have hr : '-' ∉ rest := fun hh => hpre (List.mem_cons_of_mem _ hh)
    rw [List.cons_append, strokeKeysGo, if_neg hc]
    by_cases hm : c ∈ no_hyphen_keys
    · rw [if_pos hm, ih hr, List.map_cons, List.cons_append, specLeftKey, if_pos hm]
    · rw [if_neg hm, if_neg (by simp), ih hr, List.map_cons, List.cons_append,
        specLeftKey, if_neg hm]

/-- C8: `get_keys_for_stroke` is deterministic and order-preserving: the
characters before the first hyphen are suffixed with a hyphen, the characters
after it are prefixed with one, the reserved boundary-independent characters
(among them star and the number bar) stay bare, input order is preserved, and
`PHRO-FR` converts to `(P-, H-, R-, O-, -F, -R)`. -/
theorem C8_steno_notation_order_preserving :
    (∀ (pre post : List Char), '-' ∉ pre → '-' ∉ post →
        get_keys_for_stroke (String.mk (pre ++ '-' :: post)) =
          pre.map specLeftKey ++ post.map specRightKey) ∧
    get_keys_for_stroke (r"PHRO-FR") =
      [ r"P-", r"H-", r"R-", r"O-", r"-F", r"-R" ] := by
  constructor
  · intro pre post hpre hpost
    show strokeKeysGo (String.mk (pre ++ '-' :: post)).toList false = _
    exact strokeKeysGo_split pre post hpre hpost
  · decide

theorem C8_steno_notation_order_preserving_witness :
    get_keys_for_stroke (String.mk ([ 'P', 'H', 'R', 'O' ] ++ '-' :: [ 'F', 'R' ])) =
      [ 'P', 'H', 'R', 'O' ].map specLeftKey ++ [ 'F', 'R' ].map specRightKey :=
  C8_steno_notation_order_preserving.1 [ 'P', 'H', 'R', 'O' ] [ 'F', 'R' ]
    (by decide) (by decide)

theorem parseMappingsLine_skip (m : Mappings) (line : List Char)
    (h : lineUnrecognized line = true) : parseMappingsLine m line = .ok m := by
  unfold lineUnrecognized at h
  simp only [Bool.and_eq_true, Option.isNone_iff_eq_none] at h
  obtain ⟨⟨⟨⟨⟨h1, h2⟩, h3⟩, h4⟩, h5⟩, h6⟩ := h
  rw [parseMappingsLine]
  split_ifs with hb
  · rfl
  · simp only [h1, h2, h3, h4, h5, h6]

theorem parseLines_skip_middle (junk : List Char) (h : lineUnrecognized junk = true)
    (ls₁ ls₂ : List (List Char)) (m : Mappings) :
    parseLines m (ls₁ ++ junk :: ls₂) = parseLines m (ls₁ ++ ls₂) := by
  induction ls₁ generalizing m with
  | nil =>
    simp only [List.nil_append]
    rw [parseLines, parseMappingsLine_skip m junk h]
  | cons l rest ih =>
    rw [List.cons_append, List.cons_append, parseLines, parseLines]
    cases hm : parseMappingsLine m l with
    | ok m' => exact ih m'
    | error e => rfl

theorem parseLines_all_ok (ls : List (List Char))
    (h : ∀ l ∈ ls, ∀ m : Mappings, exOk (parseMappingsLine m l) = true) :
    ∀ m : Mappings, exOk (parseLines m ls) = true := by
  induction ls with
  | nil => intro m; rfl
  | cons l rest ih =>
    intro m
    rw [parseLines]
    cases hm : parseMappingsLine m l with
    | ok m' =>
      exact ih (fun x hx => h x (List.mem_cons_of_mem _ hx)) m'
    | error e =>
      have := h l (List.mem_cons_self l rest) m
      rw [hm] at this
      exact absurd this (by simp [exOk])

/-- C9 (counterexample): parsing is not total — the stick-declaration line
`l stick has segments (a) on axes 0 and 1 offset by - degrees` matches the
stick pattern with offset capture `-`, `float("-")` raises `ValueError`, and
`Mappings.parse` propagates the exception instead of returning a `Mappings`. -/
theorem C9_parse_raises_on_bad_float :
    Mappings.parse exampleBadGrammar = .error (String.mk [ '-' ]) ∧
      exOk (Mappings.parse exampleBadGrammar) = false :=
  ⟨rfl, by decide⟩

/-- C9 (amended): parsing is line-oriented and best-effort for recognized and
unrecognized lines alike — an unrecognized line is skipped with the state
unchanged and never aborts the rest of the document, and the parse returns a
`Mappings` whenever every line parses without raising; however a
stick-declaration line whose offset capture is not a valid float literal
raises `ValueError` and aborts the whole parse. -/
theorem C9_parse_line_oriented_best_effort :
    (∀ (m : Mappings) (line : List Char),
        lineUnrecognized line = true → parseMappingsLine m line = .ok m) ∧
    (∀ (junk : List Char), lineUnrecognized junk = true →
      ∀ (ls₁ ls₂ : List (List Char)) (m : Mappings),
        parseLines m (ls₁ ++ junk :: ls₂) = parseLines m (ls₁ ++ ls₂)) ∧
    (∀ (ls : List (List Char)),
        (∀ l ∈ ls, ∀ m : Mappings, exOk (parseMappingsLine m l) = true) →
        ∀ m : Mappings, exOk (parseLines m ls) = true) ∧
    exOk (Mappings.parse exampleMixedGrammar) = true :=
  ⟨parseMappingsLine_skip, parseLines_skip_middle, parseLines_all_ok, by decide⟩

theorem C9_parse_line_oriented_best_effort_witness :
    parseMappingsLine Mappings.empty exampleJunkLine = .ok Mappings.empty ∧
      parseLines Mappings.empty [ exampleRuleLine, exampleJunkLine ] =
        parseLines Mappings.empty [ exampleRuleLine ] ∧
      exOk (parseLines Mappings.empty [ exampleRuleLine ]) = true :=
  ⟨C9_parse_line_oriented_best_effort.1 Mappings.empty exampleJunkLine (by decide),
    C9_parse_line_oriented_best_effort.2.1 exampleJunkLine (by decide)
      [ exampleRuleLine ] [] Mappings.empty,
    C9_parse_line_oriented_best_effort.2.2.1 [ exampleRuleLine ]
      (by
        intro l hl m
        rw [List.mem_singleton] at hl
        subst hl
        rfl)
      Mappings.empty⟩

end PloverController
